import Mathlib

set_option maxHeartbeats 1000000
set_option maxRecDepth 8000

deriving instance DecidableEq for Except

namespace HoliP2P

/-! Shallow embedding of `packages/core/holi-p2p/src/varint.rs` and
`packages/core/holi-p2p/src/frame.rs`.

Bytes are modelled as natural numbers (every byte stream the code
produces holds values below 256); `u32`/`u64` wrap-around is written as
an explicit `% 2 ^ 32` / `% 2 ^ 64`, and the Rust `as u8` cast is
`% 2 ^ 8`. Fallible Rust functions returning `Result` become `Except`.
Rust `String` values are modelled by their UTF-8 byte vectors (a Rust
`String` is exactly its UTF-8 bytes, and string equality is byte
equality). -/

/-- `VarintError` from varint.rs. -/
inductive VarintError where
  | unexpectedEof
  | overflow
deriving DecidableEq

/-- `encode_u32_varint` from varint.rs: while `value >= 0x80` push
`((value as u8) & 0x7F) | 0x80` and shift `value` right by 7; finally
push `value as u8`. -/
def encode_u32_varint (value : Nat) : List Nat :=
  if h : 0x80 ≤ value then
    (((value % 2 ^ 8) &&& 0x7F) ||| 0x80) :: encode_u32_varint (value >>> 7)
  else
    [value % 2 ^ 8]
termination_by value
decreasing_by
  rw [Nat.shiftRight_eq_div_pow]
  exact Nat.div_lt_self (by omega) (by norm_num)

/-- `encode_u64_varint` from varint.rs (same loop at width 64). -/
def encode_u64_varint (value : Nat) : List Nat :=
  if h : 0x80 ≤ value then
    (((value % 2 ^ 8) &&& 0x7F) ||| 0x80) :: encode_u64_varint (value >>> 7)
  else
    [value % 2 ^ 8]
termination_by value
decreasing_by
  rw [Nat.shiftRight_eq_div_pow]
  exact Nat.div_lt_self (by omega) (by norm_num)

/-- The loop body of `decode_u32_varint` from varint.rs, one iteration of
the `for (i, &byte) in input.iter().enumerate()` loop carrying `result`,
`shift` and the byte index; `result |= bits << shift` wraps at 32 bits. -/
def decodeU32Loop : List Nat → Nat → Nat → Nat → Except VarintError (Nat × Nat)
  | [], _, _, _ => .error .unexpectedEof
  | byte :: rest, result, shift, i =>
    let bits := byte &&& 0x7F
    if 32 ≤ shift then .error .overflow
    else
      let result := result ||| ((bits <<< shift) % 2 ^ 32)
      if byte &&& 0x80 = 0 then .ok (result, i + 1)
      else decodeU32Loop rest result (shift + 7) (i + 1)

/-- `decode_u32_varint` from varint.rs. -/
def decode_u32_varint (input : List Nat) : Except VarintError (Nat × Nat) :=
  decodeU32Loop input 0 0 0

/-- The loop body of `decode_u64_varint` from varint.rs. -/
def decodeU64Loop : List Nat → Nat → Nat → Nat → Except VarintError (Nat × Nat)
  | [], _, _, _ => .error .unexpectedEof
  | byte :: rest, result, shift, i =>
    let bits := byte &&& 0x7F
    if 64 ≤ shift then .error .overflow
    else
      let result := result ||| ((bits <<< shift) % 2 ^ 64)
      if byte &&& 0x80 = 0 then .ok (result, i + 1)
      else decodeU64Loop rest result (shift + 7) (i + 1)

/-- `decode_u64_varint` from varint.rs. -/
def decode_u64_varint (input : List Nat) : Except VarintError (Nat × Nat) :=
  decodeU64Loop input 0 0 0

lemma decodeU32Loop_nil (r s i : Nat) :
    decodeU32Loop [] r s i = .error .unexpectedEof := rfl

lemma decodeU32Loop_cons (b : Nat) (rest : List Nat) (r s i : Nat) :
    decodeU32Loop (b :: rest) r s i =
      if 32 ≤ s then .error .overflow
      else
        if b &&& 0x80 = 0 then .ok (r ||| (((b &&& 0x7F) <<< s) % 2 ^ 32), i + 1)
        else decodeU32Loop rest (r ||| (((b &&& 0x7F) <<< s) % 2 ^ 32)) (s + 7) (i + 1) := rfl

lemma decodeU64Loop_nil (r s i : Nat) :
    decodeU64Loop [] r s i = .error .unexpectedEof := rfl

lemma decodeU64Loop_cons (b : Nat) (rest : List Nat) (r s i : Nat) :
    decodeU64Loop (b :: rest) r s i =
      if 64 ≤ s then .error .overflow
      else
        if b &&& 0x80 = 0 then .ok (r ||| (((b &&& 0x7F) <<< s) % 2 ^ 64), i + 1)
        else decodeU64Loop rest (r ||| (((b &&& 0x7F) <<< s) % 2 ^ 64)) (s + 7) (i + 1) := rfl

/-! ### Bit-twiddling helper facts -/

lemma land_127_eq_mod (x : Nat) : x &&& 127 = x % 128 := by
  have h := Nat.and_pow_two_sub_one_eq_mod x 7
  norm_num at h
  exact h

lemma land_128_of_lt {a : Nat} (ha : a < 128) : a &&& 128 = 0 := by
  apply Nat.eq_of_testBit_eq
  intro i
  rw [Nat.testBit_land]
  rcases eq_or_ne i 7 with rfl | hne
  · have hb : a.testBit 7 = false := Nat.testBit_lt_two_pow (by norm_num; omega)
    simp [hb]
  · have hb : (128 : Nat).testBit i = false := by
      have h2 : (2 ^ 7 : Nat).testBit i = false := Nat.testBit_two_pow_of_ne (Ne.symm hne)
      norm_num at h2
      exact h2
    simp [hb]

lemma land_128_of_cont {a : Nat} (ha : a < 128) : (a + 128) &&& 128 = 128 := by
  apply Nat.eq_of_testBit_eq
  intro i
  rw [Nat.testBit_land]
  rcases eq_or_ne i 7 with rfl | hne
  · have hb : (a + 128).testBit 7 = true := by
      rw [Nat.testBit_to_div_mod]
      norm_num
      omega
    simp [hb]
  · have hb : (128 : Nat).testBit i = false := by
      have h2 : (2 ^ 7 : Nat).testBit i = false := Nat.testBit_two_pow_of_ne (Ne.symm hne)
      norm_num at h2
      exact h2
    simp [hb]

lemma testBit_add_mul_two_pow (a b k i : Nat) (ha : a < 2 ^ k) :
    (a + b * 2 ^ k).testBit i = if i < k then a.testBit i else b.testBit (i - k) := by
  rcases lt_or_ge i k with h | h
  · rw [if_pos h, Nat.testBit_to_div_mod, Nat.testBit_to_div_mod]
    have hk : (2 ^ k : Nat) = 2 ^ (k - i) * 2 ^ i := by
      rw [← pow_add]
      congr 1
      omega
    have hdiv : (a + b * 2 ^ k) / 2 ^ i = a / 2 ^ i + b * 2 ^ (k - i) := by
      rw [hk, ← Nat.mul_assoc]
      exact Nat.add_mul_div_right a _ (by positivity)
    rw [hdiv]
    have hev : b * 2 ^ (k - i) % 2 = 0 := by
      have h1 : (2 ^ (k - i) : Nat) = 2 ^ (k - i - 1) * 2 := by
        rw [← pow_succ]
        congr 1
        omega
      rw [h1, ← Nat.mul_assoc]
      simp [Nat.mul_mod_left]
    simp only [decide_eq_decide]
    omega
  · rw [if_neg (by omega), Nat.testBit_to_div_mod, Nat.testBit_to_div_mod]
    have hdiv : (a + b * 2 ^ k) / 2 ^ i = b / 2 ^ (i - k) := by
      have hk : (2 ^ i : Nat) = 2 ^ k * 2 ^ (i - k) := by
        rw [← pow_add]
        congr 1
        omega
      rw [hk, ← Nat.div_div_eq_div_mul]
      have hq : (a + b * 2 ^ k) / 2 ^ k = b := by
        rw [Nat.add_mul_div_right a b (by positivity)]
        have : a / 2 ^ k = 0 := Nat.div_eq_of_lt ha
        omega
      rw [hq]
    rw [hdiv]

lemma lor_shiftLeft_eq_add {a k : Nat} (b : Nat) (ha : a < 2 ^ k) :
    a ||| b <<< k = a + b * 2 ^ k := by
  apply Nat.eq_of_testBit_eq
  intro i
  rw [Nat.testBit_lor, Nat.testBit_shiftLeft, testBit_add_mul_two_pow a b k i ha]
  rcases lt_or_ge i k with h | h
  · rw [if_pos h]
    simp [Nat.not_le.mpr h]
  · rw [if_neg (by omega)]
    have hlt : a < 2 ^ i := lt_of_lt_of_le ha (Nat.pow_le_pow_right (by norm_num) h)
    have hb : a.testBit i = false := Nat.testBit_lt_two_pow hlt
    simp [hb, h]

/-- One-step characterisation of `encode_u32_varint`: the continuation
byte pushed by the loop is `value % 0x80 + 0x80` and the final byte is
`value` itself. -/
lemma encode_u32_varint_eq (value : Nat) :
    encode_u32_varint value =
      if 0x80 ≤ value then (value % 0x80 + 0x80) :: encode_u32_varint (value >>> 7)
      else [value] := by
  rw [encode_u32_varint]
  split
  · rename_i h
    congr 1
    have h1 : (value % 2 ^ 8) &&& 0x7F = value % 0x80 := by
      rw [land_127_eq_mod]
      norm_num
    rw [h1]
    have h2 : value % 0x80 < 2 ^ 7 := by
      have := Nat.mod_lt value (y := 0x80) (by norm_num)
      norm_num at this ⊢
      omega
    have h3 := lor_shiftLeft_eq_add (a := value % 0x80) (k := 7) 1 h2
    norm_num at h3
    exact h3
  · rename_i h
    congr 1
    omega

/-- One-step characterisation of `encode_u64_varint`. -/
lemma encode_u64_varint_eq (value : Nat) :
    encode_u64_varint value =
      if 0x80 ≤ value then (value % 0x80 + 0x80) :: encode_u64_varint (value >>> 7)
      else [value] := by
  rw [encode_u64_varint]
  split
  · rename_i h
    congr 1
    have h1 : (value % 2 ^ 8) &&& 0x7F = value % 0x80 := by
      rw [land_127_eq_mod]
      norm_num
    rw [h1]
    have h2 : value % 0x80 < 2 ^ 7 := by
      have := Nat.mod_lt value (y := 0x80) (by norm_num)
      norm_num at this ⊢
      omega
    have h3 := lor_shiftLeft_eq_add (a := value % 0x80) (k := 7) 1 h2
    norm_num at h3
    exact h3
  · rename_i h
    congr 1
    omega

/-! ### Varint arithmetic bounds -/

lemma varint_step_bound {v shift w : Nat} (h : 0x80 ≤ v) (hv : v < 2 ^ (w - shift)) :
    shift + 7 < w ∧ v >>> 7 < 2 ^ (w - (shift + 7)) := by
  have h7 : (2 : Nat) ^ 7 < 2 ^ (w - shift) := by
    calc (2 : Nat) ^ 7 = 128 := by norm_num
    _ ≤ v := h
    _ < 2 ^ (w - shift) := hv
  have hlt : 7 < w - shift := (Nat.pow_lt_pow_iff_right (by norm_num)).mp h7
  refine ⟨by omega, ?_⟩
  rw [Nat.shiftRight_eq_div_pow, Nat.div_lt_iff_lt_mul (by positivity)]
  calc v < 2 ^ (w - shift) := hv
  _ = 2 ^ (w - (shift + 7)) * 2 ^ 7 := by
    rw [← pow_add]
    congr 1
    omega

lemma varint_acc_bound {r shift : Nat} (m : Nat) (hr : r < 2 ^ shift) (hm : m < 128) :
    r + m * 2 ^ shift < 2 ^ (shift + 7) := by
  have h1 : m * 2 ^ shift ≤ 127 * 2 ^ shift := mul_le_mul_right' (by omega) (2 ^ shift)
  have h2 : (2 : Nat) ^ (shift + 7) = 128 * 2 ^ shift := by
    rw [pow_add]
    ring
  omega

lemma varint_shift_bound {m shift w : Nat} (hm : m < 128) (h7 : shift + 7 ≤ w) :
    m * 2 ^ shift < 2 ^ w := by
  have h2 : (2 : Nat) ^ (shift + 7) = 128 * 2 ^ shift := by
    rw [pow_add]
    ring
  have h3 : (2 : Nat) ^ (shift + 7) ≤ 2 ^ w := Nat.pow_le_pow_right (by norm_num) h7
  have h4 : m * 2 ^ shift ≤ 127 * 2 ^ shift := mul_le_mul_right' (by omega) (2 ^ shift)
  have h5 : 0 < 2 ^ shift := by positivity
  omega

lemma varint_term_bound {v shift w : Nat} (hv : v < 2 ^ (w - shift)) (hs : shift ≤ w) :
    v * 2 ^ shift < 2 ^ w := by
  have h1 : (2 : Nat) ^ (w - shift) * 2 ^ shift = 2 ^ w := by
    rw [← pow_add]
    congr 1
    omega
  have h2 : v * 2 ^ shift < 2 ^ (w - shift) * 2 ^ shift :=
    mul_lt_mul_of_pos_right hv (by positivity)
  omega

/-! ### u32 varint round-trip -/

lemma decodeU32Loop_encode (v : Nat) :
    ∀ (r shift i : Nat) (rest : List Nat), shift < 32 → v < 2 ^ (32 - shift) → r < 2 ^ shift →
      decodeU32Loop (encode_u32_varint v ++ rest) r shift i =
        .ok (r + v * 2 ^ shift, i + (encode_u32_varint v).length) := by
  induction v using Nat.strong_induction_on with
  | _ v ih =>
    intro r shift i rest hs hv hr
    rw [encode_u32_varint_eq]
    by_cases h : 0x80 ≤ v
    · rw [if_pos h]
      obtain ⟨hs7, hv7⟩ := varint_step_bound h hv
      have hm : v % 0x80 < 128 := by omega
      rw [List.cons_append, decodeU32Loop_cons, if_neg (by omega)]
      have hb1 : (v % 0x80 + 0x80) &&& 0x7F = v % 0x80 := by
        rw [land_127_eq_mod]
        omega
      have hb2 : (v % 0x80 + 0x80) &&& 0x80 = 128 := land_128_of_cont hm
      rw [hb1, hb2, if_neg (by norm_num)]
      have hlt : (v % 0x80) * 2 ^ shift < 2 ^ 32 := varint_shift_bound hm (by omega)
      rw [Nat.shiftLeft_eq, Nat.mod_eq_of_lt hlt, ← Nat.shiftLeft_eq,
        lor_shiftLeft_eq_add (v % 0x80) hr]
      have hr7 : r + v % 0x80 * 2 ^ shift < 2 ^ (shift + 7) := varint_acc_bound _ hr hm
      rw [ih (v >>> 7) (by rw [Nat.shiftRight_eq_div_pow]; exact Nat.div_lt_self (by omega) (by norm_num))
        _ (shift + 7) (i + 1) rest (by omega) hv7 hr7]
      have hq : v >>> 7 = v / 128 := by
        rw [Nat.shiftRight_eq_div_pow]
      have hp : (2 : Nat) ^ (shift + 7) = 2 ^ shift * 128 := by
        rw [pow_add]
        ring
      have hsum : r + v % 0x80 * 2 ^ shift + v >>> 7 * 2 ^ (shift + 7) = r + v * 2 ^ shift := by
        rw [hq, hp]
        have hv128 : 128 * (v / 128) + v % 128 = v := Nat.div_add_mod v 128
        have hx : v % 0x80 * 2 ^ shift + v / 128 * (2 ^ shift * 128) = v * 2 ^ shift := by
          conv_rhs => rw [← hv128]
          ring_nf
        omega
      rw [hsum]
      simp only [List.length_cons]
      congr 2 <;> omega
    · rw [if_neg h]
      have hv128 : v < 128 := by omega
      rw [List.singleton_append, decodeU32Loop_cons, if_neg (by omega)]
      have hb1 : v &&& 0x7F = v := by
        rw [land_127_eq_mod]
        omega
      have hb2 : v &&& 0x80 = 0 := land_128_of_lt hv128
      rw [hb1, hb2, if_pos rfl]
      have hlt : v * 2 ^ shift < 2 ^ 32 := varint_term_bound hv (by omega)
      rw [Nat.shiftLeft_eq, Nat.mod_eq_of_lt hlt, ← Nat.shiftLeft_eq, lor_shiftLeft_eq_add v hr]
      simp [Nat.shiftLeft_eq]

lemma decode_u32_varint_encode_append (v : Nat) (rest : List Nat) (hv : v < 2 ^ 32) :
    decode_u32_varint (encode_u32_varint v ++ rest) =
      .ok (v, (encode_u32_varint v).length) := by
  have h := decodeU32Loop_encode v 0 0 0 rest (by norm_num) (by simpa using hv) (by norm_num)
  simpa using h

lemma encode_u32_varint_length_pos (v : Nat) : 1 ≤ (encode_u32_varint v).length := by
  rw [encode_u32_varint_eq]
  split <;> simp

lemma encode_u32_varint_length_le (v : Nat) :
    ∀ k : Nat, 1 ≤ k → v < 2 ^ (7 * k) → (encode_u32_varint v).length ≤ k := by
  induction v using Nat.strong_induction_on with
  | _ v ih =>
    intro k hk hv
    rw [encode_u32_varint_eq]
    by_cases h : 0x80 ≤ v
    · rw [if_pos h]
      have hk2 : 2 ≤ k := by
        by_contra hlt
        have hk1 : k = 1 := by omega
        subst hk1
        norm_num at hv
        omega
      have hlt : v >>> 7 < 2 ^ (7 * (k - 1)) := by
        rw [Nat.shiftRight_eq_div_pow, Nat.div_lt_iff_lt_mul (by positivity)]
        calc v < 2 ^ (7 * k) := hv
        _ = 2 ^ (7 * (k - 1)) * 2 ^ 7 := by
          rw [← pow_add]
          congr 1
          omega
      have := ih (v >>> 7)
        (by rw [Nat.shiftRight_eq_div_pow]; exact Nat.div_lt_self (by omega) (by norm_num))
        (k - 1) (by omega) hlt
      simp only [List.length_cons]
      omega
    · rw [if_neg h]
      simp only [List.length_singleton]
      omega

lemma decodeU32Loop_encode_take (v : Nat) :
    ∀ (r shift i j : Nat), shift < 32 → v < 2 ^ (32 - shift) → j < (encode_u32_varint v).length →
      decodeU32Loop ((encode_u32_varint v).take j) r shift i = .error .unexpectedEof := by
  induction v using Nat.strong_induction_on with
  | _ v ih =>
    intro r shift i j hs hv hj
    rw [encode_u32_varint_eq] at hj ⊢
    by_cases h : 0x80 ≤ v
    · rw [if_pos h] at hj ⊢
      obtain ⟨hs7, hv7⟩ := varint_step_bound h hv
      cases j with
      | zero => simp [decodeU32Loop_nil]
      | succ j =>
        rw [List.take_succ_cons, decodeU32Loop_cons, if_neg (by omega)]
        have hm : v % 0x80 < 128 := by omega
        have hb2 : (v % 0x80 + 0x80) &&& 0x80 = 128 := land_128_of_cont hm
        rw [hb2, if_neg (by norm_num)]
        apply ih (v >>> 7)
          (by rw [Nat.shiftRight_eq_div_pow]; exact Nat.div_lt_self (by omega) (by norm_num))
          _ (shift + 7) (i + 1) j (by omega) hv7
        simpa using hj
    · rw [if_neg h] at hj ⊢
      have hj0 : j = 0 := by
        simp only [List.length_singleton] at hj
        omega
      subst hj0
      simp [decodeU32Loop_nil]

/-! ### u64 varint round-trip (same proofs at width 64) -/

lemma decodeU64Loop_encode (v : Nat) :
    ∀ (r shift i : Nat) (rest : List Nat), shift < 64 → v < 2 ^ (64 - shift) → r < 2 ^ shift →
      decodeU64Loop (encode_u64_varint v ++ rest) r shift i =
        .ok (r + v * 2 ^ shift, i + (encode_u64_varint v).length) := by
  induction v using Nat.strong_induction_on with
  | _ v ih =>
    intro r shift i rest hs hv hr
    rw [encode_u64_varint_eq]
    by_cases h : 0x80 ≤ v
    · rw [if_pos h]
      obtain ⟨hs7, hv7⟩ := varint_step_bound h hv
      have hm : v % 0x80 < 128 := by omega
      rw [List.cons_append, decodeU64Loop_cons, if_neg (by omega)]
      have hb1 : (v % 0x80 + 0x80) &&& 0x7F = v % 0x80 := by
        rw [land_127_eq_mod]
        omega
      have hb2 : (v % 0x80 + 0x80) &&& 0x80 = 128 := land_128_of_cont hm
      rw [hb1, hb2, if_neg (by norm_num)]
      have hlt : (v % 0x80) * 2 ^ shift < 2 ^ 64 := varint_shift_bound hm (by omega)
      rw [Nat.shiftLeft_eq, Nat.mod_eq_of_lt hlt, ← Nat.shiftLeft_eq,
        lor_shiftLeft_eq_add (v % 0x80) hr]
      have hr7 : r + v % 0x80 * 2 ^ shift < 2 ^ (shift + 7) := varint_acc_bound _ hr hm
      rw [ih (v >>> 7) (by rw [Nat.shiftRight_eq_div_pow]; exact Nat.div_lt_self (by omega) (by norm_num))
        _ (shift + 7) (i + 1) rest (by omega) hv7 hr7]
      have hq : v >>> 7 = v / 128 := by
        rw [Nat.shiftRight_eq_div_pow]
      have hp : (2 : Nat) ^ (shift + 7) = 2 ^ shift * 128 := by
        rw [pow_add]
        ring
      have hsum : r + v % 0x80 * 2 ^ shift + v >>> 7 * 2 ^ (shift + 7) = r + v * 2 ^ shift := by
        rw [hq, hp]
        have hv128 : 128 * (v / 128) + v % 128 = v := Nat.div_add_mod v 128
        have hx : v % 0x80 * 2 ^ shift + v / 128 * (2 ^ shift * 128) = v * 2 ^ shift := by
          conv_rhs => rw [← hv128]
          ring_nf
        omega
      rw [hsum]
      simp only [List.length_cons]
      congr 2 <;> omega
    · rw [if_neg h]
      have hv128 : v < 128 := by omega
      rw [List.singleton_append, decodeU64Loop_cons, if_neg (by omega)]
      have hb1 : v &&& 0x7F = v := by
        rw [land_127_eq_mod]
        omega
      have hb2 : v &&& 0x80 = 0 := land_128_of_lt hv128
      rw [hb1, hb2, if_pos rfl]
      have hlt : v * 2 ^ shift < 2 ^ 64 := varint_term_bound hv (by omega)
      rw [Nat.shiftLeft_eq, Nat.mod_eq_of_lt hlt, ← Nat.shiftLeft_eq, lor_shiftLeft_eq_add v hr]
      simp [Nat.shiftLeft_eq]

lemma decode_u64_varint_encode_append (v : Nat) (rest : List Nat) (hv : v < 2 ^ 64) :
    decode_u64_varint (encode_u64_varint v ++ rest) =
      .ok (v, (encode_u64_varint v).length) := by
  have h := decodeU64Loop_encode v 0 0 0 rest (by norm_num) (by simpa using hv) (by norm_num)
  simpa using h

lemma encode_u64_varint_length_pos (v : Nat) : 1 ≤ (encode_u64_varint v).length := by
  rw [encode_u64_varint_eq]
  split <;> simp

lemma encode_u64_varint_length_le (v : Nat) :
    ∀ k : Nat, 1 ≤ k → v < 2 ^ (7 * k) → (encode_u64_varint v).length ≤ k := by
  induction v using Nat.strong_induction_on with
  | _ v ih =>
    intro k hk hv
    rw [encode_u64_varint_eq]
    by_cases h : 0x80 ≤ v
    · rw [if_pos h]
      have hk2 : 2 ≤ k := by
        by_contra hlt
        have hk1 : k = 1 := by omega
        subst hk1
        norm_num at hv
        omega
      have hlt : v >>> 7 < 2 ^ (7 * (k - 1)) := by
        rw [Nat.shiftRight_eq_div_pow, Nat.div_lt_iff_lt_mul (by positivity)]
        calc v < 2 ^ (7 * k) := hv
        _ = 2 ^ (7 * (k - 1)) * 2 ^ 7 := by
          rw [← pow_add]
          congr 1
          omega
      have := ih (v >>> 7)
        (by rw [Nat.shiftRight_eq_div_pow]; exact Nat.div_lt_self (by omega) (by norm_num))
        (k - 1) (by omega) hlt
      simp only [List.length_cons]
      omega
    · rw [if_neg h]
      simp only [List.length_singleton]
      omega

lemma decodeU64Loop_encode_take (v : Nat) :
    ∀ (r shift i j : Nat), shift < 64 → v < 2 ^ (64 - shift) → j < (encode_u64_varint v).length →
      decodeU64Loop ((encode_u64_varint v).take j) r shift i = .error .unexpectedEof := by
  induction v using Nat.strong_induction_on with
  | _ v ih =>
    intro r shift i j hs hv hj
    rw [encode_u64_varint_eq] at hj ⊢
    by_cases h : 0x80 ≤ v
    · rw [if_pos h] at hj ⊢
      obtain ⟨hs7, hv7⟩ := varint_step_bound h hv
      cases j with
      | zero => simp [decodeU64Loop_nil]
      | succ j =>
        rw [List.take_succ_cons, decodeU64Loop_cons, if_neg (by omega)]
        have hm : v % 0x80 < 128 := by omega
        have hb2 : (v % 0x80 + 0x80) &&& 0x80 = 128 := land_128_of_cont hm
        rw [hb2, if_neg (by norm_num)]
        apply ih (v >>> 7)
          (by rw [Nat.shiftRight_eq_div_pow]; exact Nat.div_lt_self (by omega) (by norm_num))
          _ (shift + 7) (i + 1) j (by omega) hv7
        simpa using hj
    · rw [if_neg h] at hj ⊢
      have hj0 : j = 0 := by
        simp only [List.length_singleton] at hj
        omega
      subst hj0
      simp [decodeU64Loop_nil]


/-! ### frame.rs: data model -/

/-- `MAGIC` from frame.rs: the bytes of `b"HO"`. -/
def MAGIC : List Nat := [72, 79]

/-- `VERSION_V1` from frame.rs. -/
def VERSION_V1 : Nat := 1

/-- `ENVELOPE_NONCE_LEN` from frame.rs. -/
def ENVELOPE_NONCE_LEN : Nat := 24

/-- `FrameType` from frame.rs. -/
inductive FrameType where
  | ping
  | pong
  | chatText
  | fileOffer
  | fileAccept
  | fileReject
  | fileChunk
  | fileEnd
  | protocolError
  | encryptedEnvelope
deriving DecidableEq

/-- The `#[repr(u8)]` discriminant of `FrameType` (its `as u8` cast). -/
def FrameType.toU8 : FrameType → Nat
  | .ping => 0x01
  | .pong => 0x02
  | .chatText => 0x10
  | .fileOffer => 0x20
  | .fileAccept => 0x21
  | .fileReject => 0x22
  | .fileChunk => 0x23
  | .fileEnd => 0x24
  | .protocolError => 0x7F
  | .encryptedEnvelope => 0x50

/-- `FrameType::from_u8` from frame.rs: the `match` over the ten literal
tags with `None` on everything else, written as the equivalent chain of
equality tests. -/
def FrameType.fromU8 (value : Nat) : Option FrameType :=
  if value = 0x01 then some .ping
  else if value = 0x02 then some .pong
  else if value = 0x10 then some .chatText
  else if value = 0x20 then some .fileOffer
  else if value = 0x21 then some .fileAccept
  else if value = 0x22 then some .fileReject
  else if value = 0x23 then some .fileChunk
  else if value = 0x24 then some .fileEnd
  else if value = 0x7F then some .protocolError
  else if value = 0x50 then some .encryptedEnvelope
  else none

/-- `Frame` from frame.rs. -/
structure Frame where
  frame_type : FrameType
  flags : Nat
  payload : List Nat
deriving DecidableEq

/-- `FileOffer` from frame.rs (strings as their UTF-8 bytes). -/
structure FileOffer where
  id : List Nat
  filename : List Nat
  mime_type : List Nat
  size : Nat
deriving DecidableEq

/-- `FileChunk` from frame.rs. -/
structure FileChunk where
  id : List Nat
  chunk_index : Nat
  data : List Nat
deriving DecidableEq

/-- `FileReject` from frame.rs. -/
structure FileReject where
  id : List Nat
  reason : List Nat
deriving DecidableEq

/-- `DecodeError` from frame.rs. -/
inductive DecodeError where
  | unexpectedEof
  | badMagic
  | unsupportedVersion (version : Nat)
  | unknownFrameType (frame_type : Nat)
  | varint (e : VarintError)
  | lengthTooLarge (length : Nat) (max : Nat)
  | invalidUtf8
  | badEnvelope
deriving DecidableEq

/-! ### frame.rs: outer framing -/

/-- `encode_v1` from frame.rs: magic, version byte, frame-type byte,
flags byte, varint of `payload.len() as u32`, payload bytes. -/
def encode_v1 (frame : Frame) : List Nat :=
  MAGIC ++ [VERSION_V1, frame.frame_type.toU8, frame.flags]
    ++ encode_u32_varint (frame.payload.length % 2 ^ 32) ++ frame.payload

/-- `decode_v1` from frame.rs. -/
def decode_v1 (input : List Nat) (max_payload_len : Nat) :
    Except DecodeError (Frame × Nat) :=
  if input.length < 5 then .error .unexpectedEof
  else if input.take 2 ≠ MAGIC then .error .badMagic
  else
    let version := input[2]!
    if version ≠ VERSION_V1 then .error (.unsupportedVersion version)
    else
      let frame_type_raw := input[3]!
      let flags := input[4]!
      match FrameType.fromU8 frame_type_raw with
      | none => .error (.unknownFrameType frame_type_raw)
      | some frame_type =>
        match decode_u32_varint (input.drop 5) with
        | .error e => .error (.varint e)
        | .ok (payload_len, varint_len) =>
          if max_payload_len < payload_len then
            .error (.lengthTooLarge payload_len max_payload_len)
          else
            let header_len := 5 + varint_len
            let total_len := header_len + payload_len
            if input.length < total_len then .error .unexpectedEof
            else .ok (⟨frame_type, flags, (input.drop header_len).take payload_len⟩, total_len)

/-! ### frame.rs: strings and typed payloads -/

/-- A UTF-8 continuation byte, `0x80..=0xBF`. -/
def isUtf8Cont (b : Nat) : Bool := 0x80 ≤ b && b ≤ 0xBF

/-- Modelled from the Rust standard library: `decode_string` in frame.rs
delegates its validity check to `std::str::from_utf8`, which accepts
exactly the RFC 3629 byte sequences (shortest form, no surrogates,
codepoints up to U+10FFFF). Only its accept/reject behaviour is used by
the repository, and this predicate is that behaviour. -/
def utf8Valid : List Nat → Bool
  | [] => true
  | b :: rest =>
    if b ≤ 0x7F then utf8Valid rest
    else if 0xC2 ≤ b && b ≤ 0xDF then
      match rest with
      | c1 :: rest2 => isUtf8Cont c1 && utf8Valid rest2
      | _ => false
    else if b = 0xE0 then
      match rest with
      | c1 :: c2 :: rest2 => (0xA0 ≤ c1 && c1 ≤ 0xBF) && isUtf8Cont c2 && utf8Valid rest2
      | _ => false
    else if (0xE1 ≤ b && b ≤ 0xEC) || (0xEE ≤ b && b ≤ 0xEF) then
      match rest with
      | c1 :: c2 :: rest2 => isUtf8Cont c1 && isUtf8Cont c2 && utf8Valid rest2
      | _ => false
    else if b = 0xED then
      match rest with
      | c1 :: c2 :: rest2 => (0x80 ≤ c1 && c1 ≤ 0x9F) && isUtf8Cont c2 && utf8Valid rest2
      | _ => false
    else if b = 0xF0 then
      match rest with
      | c1 :: c2 :: c3 :: rest2 =>
        (0x90 ≤ c1 && c1 ≤ 0xBF) && isUtf8Cont c2 && isUtf8Cont c3 && utf8Valid rest2
      | _ => false
    else if 0xF1 ≤ b && b ≤ 0xF3 then
      match rest with
      | c1 :: c2 :: c3 :: rest2 =>
        isUtf8Cont c1 && isUtf8Cont c2 && isUtf8Cont c3 && utf8Valid rest2
      | _ => false
    else if b = 0xF4 then
      match rest with
      | c1 :: c2 :: c3 :: rest2 =>
        (0x80 ≤ c1 && c1 ≤ 0x8F) && isUtf8Cont c2 && isUtf8Cont c3 && utf8Valid rest2
      | _ => false
    else false

/-- `encode_string` from frame.rs: varint of `value.as_bytes().len() as
u32`, then the bytes. -/
def encode_string (value : List Nat) : List Nat :=
  encode_u32_varint (value.length % 2 ^ 32) ++ value

/-- `decode_string` from frame.rs; the decoded `String` is returned as
its UTF-8 bytes. -/
def decode_string (input : List Nat) : Except DecodeError (List Nat × Nat) :=
  match decode_u32_varint input with
  | .error e => .error (.varint e)
  | .ok (len, n) =>
    let start := n
    let stop := start + len
    if input.length < stop then .error .unexpectedEof
    else
      let bytes := (input.drop start).take len
      if utf8Valid bytes then .ok (bytes, stop) else .error .invalidUtf8

/-- `encode_chat_text_v1` from frame.rs. -/
def encode_chat_text_v1 (text : List Nat) : List Nat :=
  encode_v1 ⟨.chatText, 0, text⟩

/-- `encode_file_offer_v1` from frame.rs. -/
def encode_file_offer_v1 (offer : FileOffer) : List Nat :=
  encode_v1 ⟨.fileOffer, 0,
    encode_string offer.id ++ encode_string offer.filename
      ++ encode_string offer.mime_type ++ encode_u64_varint offer.size⟩

/-- `encode_file_accept_v1` from frame.rs. -/
def encode_file_accept_v1 (id : List Nat) : List Nat :=
  encode_v1 ⟨.fileAccept, 0, encode_string id⟩

/-- `decode_file_accept_payload_v1` from frame.rs. -/
def decode_file_accept_payload_v1 (payload : List Nat) : Except DecodeError (List Nat) :=
  match decode_string payload with
  | .error e => .error e
  | .ok (id, _) => .ok id

/-- `encode_file_reject_v1` from frame.rs. -/
def encode_file_reject_v1 (id reason : List Nat) : List Nat :=
  encode_v1 ⟨.fileReject, 0, encode_string id ++ encode_string reason⟩

/-- `encode_encrypted_envelope_v1` from frame.rs (the nonce is a
`[u8; 24]`; its length is a hypothesis where it matters). -/
def encode_encrypted_envelope_v1 (nonce ciphertext : List Nat) : List Nat :=
  encode_v1 ⟨.encryptedEnvelope, 0, nonce ++ ciphertext⟩

/-- `decode_encrypted_envelope_payload_v1` from frame.rs. -/
def decode_encrypted_envelope_payload_v1 (payload : List Nat) :
    Except DecodeError (List Nat × List Nat) :=
  if payload.length < ENVELOPE_NONCE_LEN then .error .badEnvelope
  else .ok (payload.take ENVELOPE_NONCE_LEN, payload.drop ENVELOPE_NONCE_LEN)

/-- `decode_file_reject_payload_v1` from frame.rs. -/
def decode_file_reject_payload_v1 (payload : List Nat) : Except DecodeError FileReject :=
  match decode_string payload with
  | .error e => .error e
  | .ok (id, i1) =>
    match decode_string (payload.drop i1) with
    | .error e => .error e
    | .ok (reason, _) => .ok ⟨id, reason⟩

/-- `decode_file_offer_payload_v1` from frame.rs. -/
def decode_file_offer_payload_v1 (payload : List Nat) : Except DecodeError FileOffer :=
  match decode_string payload with
  | .error e => .error e
  | .ok (id, i1) =>
    match decode_string (payload.drop i1) with
    | .error e => .error e
    | .ok (filename, i2) =>
      match decode_string (payload.drop (i1 + i2)) with
      | .error e => .error e
      | .ok (mime_type, i3) =>
        match decode_u64_varint (payload.drop (i1 + i2 + i3)) with
        | .error e => .error (.varint e)
        | .ok (size, _) => .ok ⟨id, filename, mime_type, size⟩

/-- `encode_file_chunk_v1` from frame.rs. -/
def encode_file_chunk_v1 (id : List Nat) (chunk_index : Nat) (data : List Nat) : List Nat :=
  encode_v1 ⟨.fileChunk, 0, encode_string id ++ encode_u32_varint chunk_index ++ data⟩

/-- `decode_file_chunk_payload_v1` from frame.rs. -/
def decode_file_chunk_payload_v1 (payload : List Nat) : Except DecodeError FileChunk :=
  match decode_string payload with
  | .error e => .error e
  | .ok (id, i1) =>
    match decode_u32_varint (payload.drop i1) with
    | .error e => .error (.varint e)
    | .ok (chunk_index, n2) =>
      let data_start := i1 + n2
      if payload.length < data_start then .error .unexpectedEof
      else .ok ⟨id, chunk_index, payload.drop data_start⟩

/-- `encode_file_end_v1` from frame.rs. -/
def encode_file_end_v1 (id : List Nat) : List Nat :=
  encode_v1 ⟨.fileEnd, 0, encode_string id⟩

/-- `decode_file_end_payload_v1` from frame.rs. -/
def decode_file_end_payload_v1 (payload : List Nat) : Except DecodeError (List Nat) :=
  match decode_string payload with
  | .error e => .error e
  | .ok (id, _) => .ok id


/-! ### Frame-level helper lemmas -/

lemma fromU8_toU8 (t : FrameType) : FrameType.fromU8 t.toU8 = some t := by
  cases t <;> rfl

lemma encode_v1_cons (t : FrameType) (fl : Nat) (payload : List Nat) :
    encode_v1 ⟨t, fl, payload⟩ =
      72 :: 79 :: 1 :: t.toU8 :: fl ::
        (encode_u32_varint (payload.length % 2 ^ 32) ++ payload) := by
  simp [encode_v1, MAGIC, VERSION_V1]

lemma drop_five_cons (b0 b1 b2 b3 b4 : Nat) (tail : List Nat) (k : Nat) :
    (b0 :: b1 :: b2 :: b3 :: b4 :: tail).drop (5 + k) = tail.drop k := by
  rw [show 5 + k = k + 5 by omega]
  rfl

/-- Evaluation of `decode_v1` on an input whose five header bytes are
well formed. -/
lemma decode_v1_header_eval (t : FrameType) (fl : Nat) (tail : List Nat) (max : Nat) :
    decode_v1 (72 :: 79 :: 1 :: t.toU8 :: fl :: tail) max =
      match decode_u32_varint tail with
      | .error e => .error (.varint e)
      | .ok (payload_len, varint_len) =>
        if max < payload_len then .error (.lengthTooLarge payload_len max)
        else if tail.length < varint_len + payload_len then .error .unexpectedEof
        else .ok (⟨t, fl, (tail.drop varint_len).take payload_len⟩,
          5 + varint_len + payload_len) := by
  simp only [decode_v1]
  rw [if_neg (by simp)]
  rw [if_neg (by simp [MAGIC])]
  rw [if_neg (by simp [VERSION_V1])]
  have h3 : (72 :: 79 :: 1 :: t.toU8 :: fl :: tail)[3]! = t.toU8 := by simp
  have h4 : (72 :: 79 :: 1 :: t.toU8 :: fl :: tail)[4]! = fl := by simp
  rw [h3, h4, fromU8_toU8]
  have h5 : (72 :: 79 :: 1 :: t.toU8 :: fl :: tail).drop 5 = tail := rfl
  rw [h5]
  cases hdec : decode_u32_varint tail with
  | error e => rfl
  | ok p =>
    obtain ⟨payload_len, varint_len⟩ := p
    simp only
    by_cases hmax : max < payload_len
    · rw [if_pos hmax, if_pos hmax]
    · rw [if_neg hmax, if_neg hmax]
      have hlen : (72 :: 79 :: 1 :: t.toU8 :: fl :: tail).length = 5 + tail.length := by
        simp only [List.length_cons]
        omega
      have hcond : ((72 :: 79 :: 1 :: t.toU8 :: fl :: tail).length < 5 + varint_len + payload_len)
          ↔ (tail.length < varint_len + payload_len) := by
        rw [hlen]
        omega
      by_cases hc : tail.length < varint_len + payload_len
      · rw [if_pos (by rw [hlen]; omega), if_pos hc]
      · rw [if_neg (by rw [hlen]; omega), if_neg hc]
        rw [drop_five_cons]

/-- C1: in `decode_v1` the declared payload length is compared against
`max_payload_len` before the input is required to contain the payload:
whenever the five header bytes and the length varint parse and the
declared length exceeds the bound, the result is `LengthTooLarge`,
with no assumption that the buffer holds any payload bytes. -/
theorem decode_v1_length_checked_first (input : List Nat) (max L n : Nat) (t : FrameType)
    (h5 : 5 ≤ input.length) (hm : input.take 2 = MAGIC) (hv : input[2]! = VERSION_V1)
    (ht : FrameType.fromU8 input[3]! = some t)
    (hvar : decode_u32_varint (input.drop 5) = .ok (L, n))
    (hbig : max < L) :
    decode_v1 input max = .error (.lengthTooLarge L max) := by
  simp only [decode_v1]
  rw [if_neg (by omega)]
  rw [if_neg (by simp [hm])]
  rw [if_neg (by simp [hv, VERSION_V1])]
  rw [ht, hvar]
  simp only
  rw [if_pos hbig]

/-- C1 witness: a six-byte buffer declaring a 5-byte payload it does not
contain still fails with `LengthTooLarge 5 4` when the bound is 4. -/
theorem decode_v1_length_checked_first_witness :
    decode_v1 [72, 79, 1, 1, 0, 5] 4 = .error (.lengthTooLarge 5 4) :=
  decode_v1_length_checked_first [72, 79, 1, 1, 0, 5] 4 5 1 FrameType.ping
    (by decide) (by decide) (by decide) (by decide) (by decide) (by decide)


/-- C2: encode/decode round-trip of the outer framing. For every frame
whose payload length fits in `u32`, every bound at least that length and
any trailing bytes, `decode_v1` returns the frame unchanged together
with the exact size of its encoding, so a caller can advance past one
frame in a larger buffer. -/
theorem decode_encode_v1_roundtrip (F : Frame) (rest : List Nat) (max_payload_len : Nat)
    (hlen : F.payload.length < 2 ^ 32) (hmax : F.payload.length ≤ max_payload_len) :
    decode_v1 (encode_v1 F ++ rest) max_payload_len = .ok (F, (encode_v1 F).length) := by
  obtain ⟨t, fl, payload⟩ := F
  have hlen2 : payload.length < 2 ^ 32 := hlen
  have hmax2 : payload.length ≤ max_payload_len := hmax
  have hmod : payload.length % 2 ^ 32 = payload.length := Nat.mod_eq_of_lt hlen2
  have hE : encode_v1 ⟨t, fl, payload⟩ ++ rest =
      72 :: 79 :: 1 :: t.toU8 :: fl ::
        (encode_u32_varint payload.length ++ (payload ++ rest)) := by
    rw [encode_v1_cons, hmod]
    simp [List.append_assoc]
  rw [hE, decode_v1_header_eval,
    decode_u32_varint_encode_append payload.length (payload ++ rest) hlen2]
  simp only
  rw [if_neg (by omega)]
  have hL : (encode_u32_varint payload.length ++ (payload ++ rest)).length =
      (encode_u32_varint payload.length).length + (payload.length + rest.length) := by
    simp
  rw [if_neg (by rw [hL]; omega)]
  rw [List.drop_left, List.take_left]
  have hElen : 5 + (encode_u32_varint payload.length).length + payload.length =
      (encode_v1 ⟨t, fl, payload⟩).length := by
    rw [encode_v1_cons, hmod]
    simp only [List.length_cons, List.length_append]
    omega
  rw [hElen]

/-- C2 witness at a concrete frame with a trailing byte. -/
theorem decode_encode_v1_roundtrip_witness :
    decode_v1 (encode_v1 ⟨.ping, 0xAA, [1, 2, 3, 4, 5]⟩ ++ [9]) 1024 =
      .ok (⟨.ping, 0xAA, [1, 2, 3, 4, 5]⟩, (encode_v1 ⟨.ping, 0xAA, [1, 2, 3, 4, 5]⟩).length) :=
  decode_encode_v1_roundtrip ⟨.ping, 0xAA, [1, 2, 3, 4, 5]⟩ [9] 1024 (by decide) (by decide)

/-- C5: varint round-trip. Decoding the encoding of any `u32` returns
the value and the encoded length, which is between 1 and 5 bytes; for
`u64` values the length is between 1 and 10 bytes. -/
theorem varint_roundtrip_length :
    (∀ v : Nat, v < 2 ^ 32 →
        decode_u32_varint (encode_u32_varint v) = .ok (v, (encode_u32_varint v).length)
          ∧ 1 ≤ (encode_u32_varint v).length ∧ (encode_u32_varint v).length ≤ 5)
    ∧ (∀ v : Nat, v < 2 ^ 64 →
        decode_u64_varint (encode_u64_varint v) = .ok (v, (encode_u64_varint v).length)
          ∧ 1 ≤ (encode_u64_varint v).length ∧ (encode_u64_varint v).length ≤ 10) := by
  constructor
  · intro v hv
    refine ⟨?_, encode_u32_varint_length_pos v, ?_⟩
    · have h := decode_u32_varint_encode_append v [] hv
      simpa using h
    · exact encode_u32_varint_length_le v 5 (by norm_num) (lt_of_lt_of_le hv (by norm_num))
  · intro v hv
    refine ⟨?_, encode_u64_varint_length_pos v, ?_⟩
    · have h := decode_u64_varint_encode_append v [] hv
      simpa using h
    · exact encode_u64_varint_length_le v 10 (by norm_num) (lt_of_lt_of_le hv (by norm_num))

/-- C5 witness at `v = 300` (two bytes) and `v = 2 ^ 40` (six bytes). -/
theorem varint_roundtrip_length_witness :
    (decode_u32_varint (encode_u32_varint 300) = .ok (300, (encode_u32_varint 300).length)
      ∧ 1 ≤ (encode_u32_varint 300).length ∧ (encode_u32_varint 300).length ≤ 5)
    ∧ (decode_u64_varint (encode_u64_varint (2 ^ 40)) =
          .ok (2 ^ 40, (encode_u64_varint (2 ^ 40)).length)
      ∧ 1 ≤ (encode_u64_varint (2 ^ 40)).length ∧ (encode_u64_varint (2 ^ 40)).length ≤ 10) :=
  ⟨varint_roundtrip_length.1 300 (by norm_num), varint_roundtrip_length.2 (2 ^ 40) (by norm_num)⟩


/-- The ten tags `FrameType::from_u8` recognises, as listed in the spec. -/
def knownTags : List Nat := [0x01, 0x02, 0x10, 0x20, 0x21, 0x22, 0x23, 0x24, 0x50, 0x7F]

lemma fromU8_eq_none_iff (value : Nat) :
    FrameType.fromU8 value = none ↔ value ∉ knownTags := by
  constructor
  · intro h hmem
    fin_cases hmem <;> exact absurd h (by decide)
  · intro hmem
    simp only [knownTags, List.mem_cons, List.not_mem_nil, or_false, not_or] at hmem
    obtain ⟨n1, n2, n3, n4, n5, n6, n7, n8, n9, n10⟩ := hmem
    simp [FrameType.fromU8, n1, n2, n3, n4, n5, n6, n7, n8, n9, n10]

/-- C6: a type byte outside the closed set of ten known tags makes an
otherwise well-formed frame fail with `UnknownFrameType` carrying that
byte; `from_u8` maps no unknown tag to a fallback variant (it returns
`None` exactly off the closed set). -/
theorem unknown_frame_type_rejected :
    (∀ value : Nat, FrameType.fromU8 value = none ↔ value ∉ knownTags)
    ∧ (∀ (input : List Nat) (max : Nat), 5 ≤ input.length → input.take 2 = MAGIC →
        input[2]! = VERSION_V1 → input[3]! ∉ knownTags →
        decode_v1 input max = .error (.unknownFrameType input[3]!)) := by
  refine ⟨fromU8_eq_none_iff, ?_⟩
  intro input max h5 hm hv ht
  simp only [decode_v1]
  rw [if_neg (by omega)]
  rw [if_neg (by simp [hm])]
  rw [if_neg (by simp [hv, VERSION_V1])]
  rw [(fromU8_eq_none_iff _).mpr ht]

/-- C6 witness: tag `0x03` is rejected on a well-formed header. -/
theorem unknown_frame_type_rejected_witness :
    decode_v1 [72, 79, 1, 3, 0, 0] 10 = .error (.unknownFrameType 3) := by
  have h := unknown_frame_type_rejected.2 [72, 79, 1, 3, 0, 0] 10
    (by decide) (by decide) (by decide) (by decide)
  simpa using h

/-- C7: `decode_encrypted_envelope_payload_v1` fails with `BadEnvelope`
exactly on payloads shorter than the 24-byte nonce; on longer payloads
it returns the first 24 bytes as nonce and the rest as ciphertext, so it
inverts the payload built by `encode_encrypted_envelope_v1`. -/
theorem encrypted_envelope_payload_spec (payload nonce ciphertext : List Nat)
    (hn : nonce.length = ENVELOPE_NONCE_LEN) :
    (decode_encrypted_envelope_payload_v1 payload = .error .badEnvelope ↔
        payload.length < ENVELOPE_NONCE_LEN)
    ∧ (ENVELOPE_NONCE_LEN ≤ payload.length →
        decode_encrypted_envelope_payload_v1 payload =
          .ok (payload.take ENVELOPE_NONCE_LEN, payload.drop ENVELOPE_NONCE_LEN))
    ∧ decode_encrypted_envelope_payload_v1 (nonce ++ ciphertext) = .ok (nonce, ciphertext) := by
  refine ⟨⟨?_, ?_⟩, ?_, ?_⟩
  · intro h
    by_contra hge
    rw [decode_encrypted_envelope_payload_v1, if_neg hge] at h
    exact absurd h (by simp)
  · intro h
    rw [decode_encrypted_envelope_payload_v1, if_pos h]
  · intro h
    rw [decode_encrypted_envelope_payload_v1, if_neg (by omega)]
  · rw [decode_encrypted_envelope_payload_v1,
      if_neg (by simp only [List.length_append, hn, ENVELOPE_NONCE_LEN]; omega)]
    rw [← hn, List.take_left, List.drop_left]

/-- C7 witness: a 23-byte payload is rejected, and a 24-byte nonce with
a 2-byte ciphertext round-trips. -/
theorem encrypted_envelope_payload_spec_witness :
    ((decode_encrypted_envelope_payload_v1 (List.replicate 23 0) = .error .badEnvelope ↔
        (List.replicate 23 (0 : Nat)).length < ENVELOPE_NONCE_LEN)
      ∧ (ENVELOPE_NONCE_LEN ≤ (List.replicate 23 (0 : Nat)).length →
          decode_encrypted_envelope_payload_v1 (List.replicate 23 0) =
            .ok ((List.replicate 23 0).take ENVELOPE_NONCE_LEN,
              (List.replicate 23 0).drop ENVELOPE_NONCE_LEN))
      ∧ decode_encrypted_envelope_payload_v1 (List.replicate 24 5 ++ [1, 2]) =
          .ok (List.replicate 24 5, [1, 2])) :=
  encrypted_envelope_payload_spec (List.replicate 23 0) (List.replicate 24 5) [1, 2] (by decide)


/-! ### String and file-chunk payload round-trips -/

lemma drop_two_append (A B R : List Nat) :
    (A ++ (B ++ R)).drop (A.length + B.length) = R := by
  rw [← List.append_assoc, show A.length + B.length = (A ++ B).length by simp]
  exact List.drop_left _ _

lemma drop_three_append (A B C R : List Nat) :
    (A ++ (B ++ (C ++ R))).drop (A.length + B.length + C.length) = R := by
  have h : A ++ (B ++ (C ++ R)) = (A ++ (B ++ C)) ++ R := by simp [List.append_assoc]
  rw [h, show A.length + B.length + C.length = (A ++ (B ++ C)).length by simp [Nat.add_assoc]]
  exact List.drop_left _ _

lemma decode_string_encode (id rest : List Nat) (hutf : utf8Valid id = true)
    (hlen : id.length < 2 ^ 32) :
    decode_string (encode_string id ++ rest) =
      .ok (id, (encode_u32_varint id.length).length + id.length) := by
  have hE : encode_string id ++ rest = encode_u32_varint id.length ++ (id ++ rest) := by
    rw [encode_string, Nat.mod_eq_of_lt hlen, List.append_assoc]
  rw [hE, decode_string, decode_u32_varint_encode_append id.length (id ++ rest) hlen]
  simp only
  rw [if_neg (by simp only [List.length_append]; omega)]
  rw [List.drop_left, List.take_left, hutf]
  rfl

/-- C8: a file-chunk payload round-trips byte-for-byte. For every valid
UTF-8 id, `u32` chunk index, and arbitrary binary data (zero bytes or
invalid UTF-8 included), decoding the payload that
`encode_file_chunk_v1` wraps into its frame recovers id, index and data
exactly, the data being everything after the id and index with no length
byte of its own. -/
theorem file_chunk_payload_roundtrip (id data : List Nat) (chunk_index : Nat)
    (hutf : utf8Valid id = true) (hid : id.length < 2 ^ 32) (hci : chunk_index < 2 ^ 32) :
    decode_file_chunk_payload_v1
        (encode_string id ++ (encode_u32_varint chunk_index ++ data)) =
      .ok ⟨id, chunk_index, data⟩
    ∧ encode_file_chunk_v1 id chunk_index data =
        encode_v1 ⟨.fileChunk, 0, encode_string id ++ (encode_u32_varint chunk_index ++ data)⟩ := by
  refine ⟨?_, by rw [encode_file_chunk_v1, List.append_assoc]⟩
  rw [decode_file_chunk_payload_v1,
    decode_string_encode id (encode_u32_varint chunk_index ++ data) hutf hid]
  simp only
  have hshape : encode_string id ++ (encode_u32_varint chunk_index ++ data) =
      encode_u32_varint id.length ++ (id ++ (encode_u32_varint chunk_index ++ data)) := by
    rw [encode_string, Nat.mod_eq_of_lt hid, List.append_assoc]
  have hdrop1 : (encode_string id ++ (encode_u32_varint chunk_index ++ data)).drop
      ((encode_u32_varint id.length).length + id.length) =
      encode_u32_varint chunk_index ++ data := by
    rw [hshape]
    exact drop_two_append _ _ _
  rw [hdrop1, decode_u32_varint_encode_append chunk_index data hci]
  simp only
  rw [if_neg (by
    rw [hshape]
    simp only [List.length_append]
    omega)]
  have hdrop2 : (encode_string id ++ (encode_u32_varint chunk_index ++ data)).drop
      ((encode_u32_varint id.length).length + id.length +
        (encode_u32_varint chunk_index).length) = data := by
    rw [hshape]
    exact drop_three_append _ _ _ _
  rw [hdrop2]

/-- C8 witness: id "hi", index 300, data with a zero byte and bytes that
are not valid UTF-8. -/
theorem file_chunk_payload_roundtrip_witness :
    decode_file_chunk_payload_v1
        (encode_string [104, 105] ++ (encode_u32_varint 300 ++ [0, 255, 1])) =
      .ok ⟨[104, 105], 300, [0, 255, 1]⟩
    ∧ encode_file_chunk_v1 [104, 105] 300 [0, 255, 1] =
        encode_v1 ⟨.fileChunk, 0, encode_string [104, 105] ++ (encode_u32_varint 300 ++ [0, 255, 1])⟩ :=
  file_chunk_payload_roundtrip [104, 105] [0, 255, 1] 300 (by decide) (by decide) (by decide)


/-! ### Consumed-length bounds -/

lemma decodeU32Loop_ok_le (input : List Nat) :
    ∀ (r s i v n : Nat), decodeU32Loop input r s i = .ok (v, n) → n ≤ i + input.length := by
  induction input with
  | nil =>
    intro r s i v n h
    rw [decodeU32Loop_nil] at h
    exact absurd h (by simp)
  | cons b rest ih =>
    intro r s i v n h
    rw [decodeU32Loop_cons] at h
    by_cases h32 : 32 ≤ s
    · rw [if_pos h32] at h
      exact absurd h (by simp)
    · rw [if_neg h32] at h
      by_cases hb : b &&& 0x80 = 0
      · rw [if_pos hb] at h
        simp only [Except.ok.injEq, Prod.mk.injEq] at h
        simp only [List.length_cons]
        omega
      · rw [if_neg hb] at h
        have := ih _ _ _ _ _ h
        simp only [List.length_cons]
        omega

lemma decode_u32_varint_ok_le (input : List Nat) (v n : Nat)
    (h : decode_u32_varint input = .ok (v, n)) : n ≤ input.length := by
  simpa using decodeU32Loop_ok_le input 0 0 0 v n h

lemma decodeU64Loop_ok_le (input : List Nat) :
    ∀ (r s i v n : Nat), decodeU64Loop input r s i = .ok (v, n) → n ≤ i + input.length := by
  induction input with
  | nil =>
    intro r s i v n h
    rw [decodeU64Loop_nil] at h
    exact absurd h (by simp)
  | cons b rest ih =>
    intro r s i v n h
    rw [decodeU64Loop_cons] at h
    by_cases h64 : 64 ≤ s
    · rw [if_pos h64] at h
      exact absurd h (by simp)
    · rw [if_neg h64] at h
      by_cases hb : b &&& 0x80 = 0
      · rw [if_pos hb] at h
        simp only [Except.ok.injEq, Prod.mk.injEq] at h
        simp only [List.length_cons]
        omega
      · rw [if_neg hb] at h
        have := ih _ _ _ _ _ h
        simp only [List.length_cons]
        omega

lemma decode_u64_varint_ok_le (input : List Nat) (v n : Nat)
    (h : decode_u64_varint input = .ok (v, n)) : n ≤ input.length := by
  simpa using decodeU64Loop_ok_le input 0 0 0 v n h

lemma decode_string_le (input s : List Nat) (n : Nat)
    (h : decode_string input = .ok (s, n)) : n ≤ input.length := by
  rw [decode_string] at h
  cases hdec : decode_u32_varint input with
  | error e =>
    rw [hdec] at h
    exact absurd h (by simp)
  | ok p =>
    obtain ⟨len, m⟩ := p
    rw [hdec] at h
    simp only at h
    by_cases hc : input.length < m + len
    · rw [if_pos hc] at h
      exact absurd h (by simp)
    · rw [if_neg hc] at h
      by_cases hu : utf8Valid ((input.drop m).take len) = true
      · rw [if_pos hu] at h
        simp only [Except.ok.injEq, Prod.mk.injEq] at h
        omega
      · rw [if_neg hu] at h
        exact absurd h (by simp)

/-- C10: the `UnexpectedEof` guard in `decode_file_chunk_payload_v1` is
unreachable. Whenever the id string and the chunk-index varint both
decode, their consumed byte counts sum to at most the payload length,
and the function succeeds, returning the remaining bytes as data. -/
theorem file_chunk_eof_guard_unreachable (payload id : List Nat) (i1 chunk_index n2 : Nat)
    (h1 : decode_string payload = .ok (id, i1))
    (h2 : decode_u32_varint (payload.drop i1) = .ok (chunk_index, n2)) :
    i1 + n2 ≤ payload.length
    ∧ decode_file_chunk_payload_v1 payload = .ok ⟨id, chunk_index, payload.drop (i1 + n2)⟩ := by
  have hi1 : i1 ≤ payload.length := decode_string_le _ _ _ h1
  have hn2 : n2 ≤ (payload.drop i1).length := decode_u32_varint_ok_le _ _ _ h2
  rw [List.length_drop] at hn2
  refine ⟨by omega, ?_⟩
  rw [decode_file_chunk_payload_v1, h1]
  simp only
  rw [h2]
  simp only
  rw [if_neg (by omega)]

/-- C10 witness on the payload `[1, 104, 7, 9]` (id "h", index 7, one
data byte). -/
theorem file_chunk_eof_guard_unreachable_witness :
    2 + 1 ≤ ([1, 104, 7, 9] : List Nat).length
    ∧ decode_file_chunk_payload_v1 [1, 104, 7, 9] =
        .ok ⟨[104], 7, ([1, 104, 7, 9] : List Nat).drop (2 + 1)⟩ :=
  file_chunk_eof_guard_unreachable [1, 104, 7, 9] [104] 2 7 1 (by decide) (by decide)


/-! ### Overflow behaviour of the varint decoders -/

lemma decodeU32Loop_overflow (m : Nat) :
    ∀ (input : List Nat) (r s i : Nat), m < input.length → 32 ≤ s + 7 * m →
      (∀ j, j < m → input[j]! &&& 0x80 ≠ 0) →
      decodeU32Loop input r s i = .error .overflow := by
  induction m with
  | zero =>
    intro input r s i hlen h32 _
    cases input with
    | nil => simp at hlen
    | cons b rest =>
      rw [decodeU32Loop_cons, if_pos (by omega)]
  | succ m ih =>
    intro input r s i hlen h32 hcont
    cases input with
    | nil => simp at hlen
    | cons b rest =>
      rw [decodeU32Loop_cons]
      by_cases hs : 32 ≤ s
      · rw [if_pos hs]
      · rw [if_neg hs]
        have hb : b &&& 0x80 ≠ 0 := by
          have := hcont 0 (by omega)
          simpa using this
        rw [if_neg hb]
        apply ih rest _ (s + 7) (i + 1)
        · simp only [List.length_cons] at hlen
          omega
        · omega
        · intro j hj
          have := hcont (j + 1) (by omega)
          simpa using this

lemma decodeU64Loop_overflow (m : Nat) :
    ∀ (input : List Nat) (r s i : Nat), m < input.length → 64 ≤ s + 7 * m →
      (∀ j, j < m → input[j]! &&& 0x80 ≠ 0) →
      decodeU64Loop input r s i = .error .overflow := by
  induction m with
  | zero =>
    intro input r s i hlen h64 _
    cases input with
    | nil => simp at hlen
    | cons b rest =>
      rw [decodeU64Loop_cons, if_pos (by omega)]
  | succ m ih =>
    intro input r s i hlen h64 hcont
    cases input with
    | nil => simp at hlen
    | cons b rest =>
      rw [decodeU64Loop_cons]
      by_cases hs : 64 ≤ s
      · rw [if_pos hs]
      · rw [if_neg hs]
        have hb : b &&& 0x80 ≠ 0 := by
          have := hcont 0 (by omega)
          simpa using this
        rw [if_neg hb]
        apply ih rest _ (s + 7) (i + 1)
        · simp only [List.length_cons] at hlen
          omega
        · omega
        · intro j hj
          have := hcont (j + 1) (by omega)
          simpa using this

/-- C3 counterexample: the five bytes `FF FF FF FF 1F` encode
`2 ^ 33 - 1 = 8589934591` (the 64-bit decoder reads exactly that value),
which is not representable in 32 bits, yet `decode_u32_varint` does not
fail with `Overflow`: the high bits of the final byte are discarded by
the wrapping shift and the value is silently truncated to `2 ^ 32 - 1`. -/
theorem varint_overflow_claim_counterexample :
    decode_u32_varint [0xFF, 0xFF, 0xFF, 0xFF, 0x1F] = .ok (4294967295, 5)
    ∧ decode_u64_varint [0xFF, 0xFF, 0xFF, 0xFF, 0x1F] = .ok (8589934591, 5)
    ∧ 2 ^ 32 ≤ 8589934591
    ∧ (4294967295 : Nat) ≠ 8589934591 := by
  refine ⟨by decide, by decide, by decide, by decide⟩

/-- C3 as amended: the decoders fail with `Overflow` on every input
whose continuation bits extend the encoding to the byte at bit offset 35
(a sixth byte) for `u32`, respectively 70 (an eleventh byte) for `u64`,
independent of the bytes' low bits; out-of-range values whose encoding
terminates at bit offset 28 (resp. 63) are truncated, not rejected. -/
theorem varint_overflow_on_long_encodings :
    (∀ input : List Nat, 5 < input.length → (∀ j, j < 5 → input[j]! &&& 0x80 ≠ 0) →
        decode_u32_varint input = .error .overflow)
    ∧ (∀ input : List Nat, 10 < input.length → (∀ j, j < 10 → input[j]! &&& 0x80 ≠ 0) →
        decode_u64_varint input = .error .overflow) := by
  constructor
  · intro input hlen hcont
    exact decodeU32Loop_overflow 5 input 0 0 0 (by omega) (by norm_num) hcont
  · intro input hlen hcont
    exact decodeU64Loop_overflow 10 input 0 0 0 (by omega) (by norm_num) hcont

/-- C3 witness: six continuation-bit bytes overflow the 32-bit decoder,
eleven overflow the 64-bit one, whatever the final byte holds. -/
theorem varint_overflow_on_long_encodings_witness :
    decode_u32_varint [0x80, 0x80, 0x80, 0x80, 0x80, 0x00] = .error .overflow
    ∧ decode_u64_varint [0x80, 0x80, 0x80, 0x80, 0x80, 0x80, 0x80, 0x80, 0x80, 0x80, 0x00] =
        .error .overflow :=
  ⟨varint_overflow_on_long_encodings.1 [0x80, 0x80, 0x80, 0x80, 0x80, 0x00]
      (by decide) (by decide),
    varint_overflow_on_long_encodings.2
      [0x80, 0x80, 0x80, 0x80, 0x80, 0x80, 0x80, 0x80, 0x80, 0x80, 0x00]
      (by decide) (by decide)⟩


/-! ### Decoding strict truncations of a valid frame -/

lemma encode_v1_length (t : FrameType) (fl : Nat) (payload : List Nat) :
    (encode_v1 ⟨t, fl, payload⟩).length =
      5 + ((encode_u32_varint (payload.length % 2 ^ 32)).length + payload.length) := by
  rw [encode_v1_cons]
  simp only [List.length_cons, List.length_append]
  omega

/-- C4 counterexample: a strict six-byte truncation of the valid
encoding of a Ping frame with a 128-byte payload (so the length varint
spans two bytes) decodes to the nested varint error
`Varint(UnexpectedEof)`, not to the top-level `UnexpectedEof` the claim
names. -/
lemma encode_u32_varint_128 : encode_u32_varint 128 = [128, 1] := by
  have hs : (128 : Nat) >>> 7 = 1 := rfl
  rw [encode_u32_varint_eq, if_pos (by norm_num), hs,
    encode_u32_varint_eq, if_neg (by norm_num)]

lemma encode_v1_ping_128 :
    encode_v1 ⟨.ping, 0, List.replicate 128 0⟩ =
      72 :: 79 :: 1 :: FrameType.ping.toU8 :: 0 :: ([128, 1] ++ List.replicate 128 0) := by
  rw [encode_v1_cons]
  have h : (List.replicate 128 (0 : Nat)).length % 2 ^ 32 = 128 := by
    simp
  rw [h, encode_u32_varint_128]

theorem truncated_decode_error_kind_counterexample :
    6 < (encode_v1 ⟨.ping, 0, List.replicate 128 0⟩).length
    ∧ (List.replicate 128 (0 : Nat)).length ≤ 128
    ∧ decode_v1 ((encode_v1 ⟨.ping, 0, List.replicate 128 0⟩).take 6) 128 =
        .error (.varint .unexpectedEof)
    ∧ (Except.error (DecodeError.varint .unexpectedEof) :
        Except DecodeError (Frame × Nat)) ≠ .error .unexpectedEof := by
  refine ⟨?_, by decide, ?_, by decide⟩
  · rw [encode_v1_ping_128]
    simp only [List.length_cons, List.length_append, List.length_replicate]
    omega
  · rw [encode_v1_ping_128]
    have htake : (72 :: 79 :: 1 :: FrameType.ping.toU8 :: 0 ::
        ([128, 1] ++ List.replicate 128 0)).take 6 =
        [72, 79, 1, FrameType.ping.toU8, 0, 128] := by
      have h1 : (([128, 1] ++ List.replicate 128 0) : List Nat).take 1 = [128] := by
        rw [List.take_append_of_le_length (by norm_num)]
        decide
      simp [List.take_succ_cons, h1]
    rw [htake]
    decide

/-- C4 as amended: decoding any strict truncation of a valid encoded
frame (payload length within the `u32` range and within the bound)
yields `UnexpectedEof`, or `Varint(UnexpectedEof)` when the cut falls
inside the length varint — never a structural error such as `BadMagic`,
`UnknownFrameType` or `LengthTooLarge`, and never success. -/
theorem decode_v1_of_truncated (F : Frame) (max k : Nat)
    (hlen : F.payload.length < 2 ^ 32) (hmax : F.payload.length ≤ max)
    (hk : k < (encode_v1 F).length) :
    decode_v1 ((encode_v1 F).take k) max = .error .unexpectedEof
    ∨ decode_v1 ((encode_v1 F).take k) max = .error (.varint .unexpectedEof) := by
  obtain ⟨t, fl, payload⟩ := F
  have hlen2 : payload.length < 2 ^ 32 := hlen
  have hmax2 : payload.length ≤ max := hmax
  have hmod : payload.length % 2 ^ 32 = payload.length := Nat.mod_eq_of_lt hlen2
  have hklen : k < 5 + ((encode_u32_varint payload.length).length + payload.length) := by
    have h := encode_v1_length t fl payload
    rw [hmod] at h
    omega
  rw [encode_v1_cons, hmod]
  by_cases h5 : k < 5
  · left
    have hshort : ((72 :: 79 :: 1 :: t.toU8 :: fl ::
        (encode_u32_varint payload.length ++ payload)).take k).length < 5 := by
      rw [List.length_take]
      omega
    simp only [decode_v1]
    rw [if_pos hshort]
  · obtain ⟨m, rfl⟩ : ∃ m, k = m + 5 := ⟨k - 5, by omega⟩
    have htake : (72 :: 79 :: 1 :: t.toU8 :: fl ::
        (encode_u32_varint payload.length ++ payload)).take (m + 5) =
        72 :: 79 :: 1 :: t.toU8 :: fl ::
          ((encode_u32_varint payload.length ++ payload).take m) := rfl
    rw [htake, decode_v1_header_eval]
    by_cases hj : m < (encode_u32_varint payload.length).length
    · right
      rw [List.take_append_of_le_length (by omega)]
      have hvar : decode_u32_varint ((encode_u32_varint payload.length).take m) =
          .error .unexpectedEof :=
        decodeU32Loop_encode_take payload.length 0 0 0 m (by norm_num)
          (by simpa using hlen2) hj
      rw [hvar]
    · left
      obtain ⟨n, rfl⟩ : ∃ n, m = (encode_u32_varint payload.length).length + n :=
        ⟨m - (encode_u32_varint payload.length).length, by omega⟩
      rw [List.take_append, decode_u32_varint_encode_append payload.length _ hlen2]
      simp only
      rw [if_neg (by omega)]
      rw [if_pos (by
        simp only [List.length_append, List.length_take]
        omega)]

/-- C4 witness: a three-byte truncation of a Ping frame with a 3-byte
payload decodes to an EOF-class error. -/
theorem decode_v1_of_truncated_witness :
    decode_v1 ((encode_v1 ⟨.ping, 0, [1, 2, 3]⟩).take 3) 3 = .error .unexpectedEof
    ∨ decode_v1 ((encode_v1 ⟨.ping, 0, [1, 2, 3]⟩).take 3) 3 = .error (.varint .unexpectedEof) :=
  decode_v1_of_truncated ⟨.ping, 0, [1, 2, 3]⟩ 3 3 (by decide) (by decide) (by decide)


/-! ### Panic-checked model

Every Rust operation in the decoders that panics when misused — slice
indexing `input[a..b]`, `&input[a..]`, element indexing `input[i]`, and
the left shift (whose shift amount must stay below the integer width) —
is modelled here as an `Option`-valued operation returning `none` in
exactly the situations where the Rust operation would panic. The checked
decoders thread these through; proving them equal to `some` of the plain
decoders on all inputs shows the decoders never panic and never access
their buffer out of bounds. -/

def slice? (l : List Nat) (a b : Nat) : Option (List Nat) :=
  if a ≤ b ∧ b ≤ l.length then some ((l.drop a).take (b - a)) else none

def dropFrom? (l : List Nat) (a : Nat) : Option (List Nat) :=
  if a ≤ l.length then some (l.drop a) else none

def shiftLeft32? (bits shift : Nat) : Option Nat :=
  if shift < 32 then some ((bits <<< shift) % 2 ^ 32) else none

def shiftLeft64? (bits shift : Nat) : Option Nat :=
  if shift < 64 then some ((bits <<< shift) % 2 ^ 64) else none

def decodeU32LoopChecked : List Nat → Nat → Nat → Nat → Option (Except VarintError (Nat × Nat))
  | [], _, _, _ => some (.error .unexpectedEof)
  | byte :: rest, result, shift, i =>
    if 32 ≤ shift then some (.error .overflow)
    else
      match shiftLeft32? (byte &&& 0x7F) shift with
      | none => none
      | some m =>
        if byte &&& 0x80 = 0 then some (.ok (result ||| m, i + 1))
        else decodeU32LoopChecked rest (result ||| m) (shift + 7) (i + 1)

def decode_u32_varint_checked (input : List Nat) : Option (Except VarintError (Nat × Nat)) :=
  decodeU32LoopChecked input 0 0 0

def decodeU64LoopChecked : List Nat → Nat → Nat → Nat → Option (Except VarintError (Nat × Nat))
  | [], _, _, _ => some (.error .unexpectedEof)
  | byte :: rest, result, shift, i =>
    if 64 ≤ shift then some (.error .overflow)
    else
      match shiftLeft64? (byte &&& 0x7F) shift with
      | none => none
      | some m =>
        if byte &&& 0x80 = 0 then some (.ok (result ||| m, i + 1))
        else decodeU64LoopChecked rest (result ||| m) (shift + 7) (i + 1)

def decode_u64_varint_checked (input : List Nat) : Option (Except VarintError (Nat × Nat)) :=
  decodeU64LoopChecked input 0 0 0

def decode_v1_checked (input : List Nat) (max_payload_len : Nat) :
    Option (Except DecodeError (Frame × Nat)) :=
  if input.length < 5 then some (.error .unexpectedEof)
  else
    match slice? input 0 2 with
    | none => none
    | some magic =>
      if magic ≠ MAGIC then some (.error .badMagic)
      else
        match input[2]?, input[3]?, input[4]? with
        | some version, some frame_type_raw, some flags =>
          if version ≠ VERSION_V1 then some (.error (.unsupportedVersion version))
          else
            match FrameType.fromU8 frame_type_raw with
            | none => some (.error (.unknownFrameType frame_type_raw))
            | some frame_type =>
              match dropFrom? input 5 with
              | none => none
              | some tail =>
                match decode_u32_varint_checked tail with
                | none => none
                | some (.error e) => some (.error (.varint e))
                | some (.ok (payload_len, varint_len)) =>
                  if max_payload_len < payload_len then
                    some (.error (.lengthTooLarge payload_len max_payload_len))
                  else
                    let header_len := 5 + varint_len
                    let total_len := header_len + payload_len
                    if input.length < total_len then some (.error .unexpectedEof)
                    else
                      match slice? input header_len total_len with
                      | none => none
                      | some payload =>
                        some (.ok (⟨frame_type, flags, payload⟩, total_len))
        | _, _, _ => none

def decode_string_checked (input : List Nat) : Option (Except DecodeError (List Nat × Nat)) :=
  match decode_u32_varint_checked input with
  | none => none
  | some (.error e) => some (.error (.varint e))
  | some (.ok (len, n)) =>
    let start := n
    let stop := start + len
    if input.length < stop then some (.error .unexpectedEof)
    else
      match slice? input start stop with
      | none => none
      | some bytes =>
        if utf8Valid bytes then some (.ok (bytes, stop)) else some (.error .invalidUtf8)

def decode_file_accept_payload_checked (payload : List Nat) :
    Option (Except DecodeError (List Nat)) :=
  match decode_string_checked payload with
  | none => none
  | some (.error e) => some (.error e)
  | some (.ok (id, _)) => some (.ok id)

def decode_file_end_payload_checked (payload : List Nat) :
    Option (Except DecodeError (List Nat)) :=
  match decode_string_checked payload with
  | none => none
  | some (.error e) => some (.error e)
  | some (.ok (id, _)) => some (.ok id)

def decode_file_reject_payload_checked (payload : List Nat) :
    Option (Except DecodeError FileReject) :=
  match decode_string_checked payload with
  | none => none
  | some (.error e) => some (.error e)
  | some (.ok (id, i1)) =>
    match dropFrom? payload i1 with
    | none => none
    | some p1 =>
      match decode_string_checked p1 with
      | none => none
      | some (.error e) => some (.error e)
      | some (.ok (reason, _)) => some (.ok ⟨id, reason⟩)

def decode_file_offer_payload_checked (payload : List Nat) :
    Option (Except DecodeError FileOffer) :=
  match decode_string_checked payload with
  | none => none
  | some (.error e) => some (.error e)
  | some (.ok (id, i1)) =>
    match dropFrom? payload i1 with
    | none => none
    | some p1 =>
      match decode_string_checked p1 with
      | none => none
      | some (.error e) => some (.error e)
      | some (.ok (filename, i2)) =>
        match dropFrom? payload (i1 + i2) with
        | none => none
        | some p2 =>
          match decode_string_checked p2 with
          | none => none
          | some (.error e) => some (.error e)
          | some (.ok (mime_type, i3)) =>
            match dropFrom? payload (i1 + i2 + i3) with
            | none => none
            | some p3 =>
              match decode_u64_varint_checked p3 with
              | none => none
              | some (.error e) => some (.error (.varint e))
              | some (.ok (size, _)) => some (.ok ⟨id, filename, mime_type, size⟩)

def decode_file_chunk_payload_checked (payload : List Nat) :
    Option (Except DecodeError FileChunk) :=
  match decode_string_checked payload with
  | none => none
  | some (.error e) => some (.error e)
  | some (.ok (id, i1)) =>
    match dropFrom? payload i1 with
    | none => none
    | some p1 =>
      match decode_u32_varint_checked p1 with
      | none => none
      | some (.error e) => some (.error (.varint e))
      | some (.ok (chunk_index, n2)) =>
        let data_start := i1 + n2
        if payload.length < data_start then some (.error .unexpectedEof)
        else
          match dropFrom? payload data_start with
          | none => none
          | some data => some (.ok ⟨id, chunk_index, data⟩)

def decode_encrypted_envelope_payload_checked (payload : List Nat) :
    Option (Except DecodeError (List Nat × List Nat)) :=
  if payload.length < ENVELOPE_NONCE_LEN then some (.error .badEnvelope)
  else
    match slice? payload 0 ENVELOPE_NONCE_LEN, dropFrom? payload ENVELOPE_NONCE_LEN with
    | some nonce, some ciphertext => some (.ok (nonce, ciphertext))
    | _, _ => none


lemma decodeU32LoopChecked_eq (input : List Nat) :
    ∀ r s i, decodeU32LoopChecked input r s i = some (decodeU32Loop input r s i) := by
  induction input with
  | nil => intro r s i; rfl
  | cons b rest ih =>
    intro r s i
    by_cases hs : 32 ≤ s
    · simp only [decodeU32LoopChecked, decodeU32Loop_cons, if_pos hs]
    · simp only [decodeU32LoopChecked, decodeU32Loop_cons, if_neg hs, shiftLeft32?,
        if_pos (show s < 32 by omega)]
      by_cases hb : b &&& 0x80 = 0
      · simp only [if_pos hb]
      · simp only [if_neg hb, ih]

lemma decode_u32_varint_checked_eq (input : List Nat) :
    decode_u32_varint_checked input = some (decode_u32_varint input) :=
  decodeU32LoopChecked_eq input 0 0 0

lemma decodeU64LoopChecked_eq (input : List Nat) :
    ∀ r s i, decodeU64LoopChecked input r s i = some (decodeU64Loop input r s i) := by
  induction input with
  | nil => intro r s i; rfl
  | cons b rest ih =>
    intro r s i
    by_cases hs : 64 ≤ s
    · simp only [decodeU64LoopChecked, decodeU64Loop_cons, if_pos hs]
    · simp only [decodeU64LoopChecked, decodeU64Loop_cons, if_neg hs, shiftLeft64?,
        if_pos (show s < 64 by omega)]
      by_cases hb : b &&& 0x80 = 0
      · simp only [if_pos hb]
      · simp only [if_neg hb, ih]

lemma decode_u64_varint_checked_eq (input : List Nat) :
    decode_u64_varint_checked input = some (decode_u64_varint input) :=
  decodeU64LoopChecked_eq input 0 0 0

lemma decode_string_checked_eq (input : List Nat) :
    decode_string_checked input = some (decode_string input) := by
  rw [decode_string_checked, decode_string, decode_u32_varint_checked_eq]
  cases hdec : decode_u32_varint input with
  | error e => rfl
  | ok p =>
    obtain ⟨len, n⟩ := p
    simp only
    by_cases hc : input.length < n + len
    · rw [if_pos hc, if_pos hc]
    · rw [if_neg hc, if_neg hc]
      have hslice : slice? input n (n + len) = some ((input.drop n).take len) := by
        simp only [slice?, if_pos (show n ≤ n + len ∧ n + len ≤ input.length by omega)]
        rw [show n + len - n = len by omega]
      rw [hslice]
      simp only
      by_cases hu : utf8Valid ((input.drop n).take len) = true
      · rw [if_pos hu, if_pos hu]
      · rw [if_neg hu, if_neg hu]

lemma decode_v1_checked_eq (input : List Nat) (max_payload_len : Nat) :
    decode_v1_checked input max_payload_len = some (decode_v1 input max_payload_len) := by
  rw [decode_v1_checked, decode_v1]
  by_cases h5 : input.length < 5
  · rw [if_pos h5, if_pos h5]
  · rw [if_neg h5, if_neg h5]
    have hsl : slice? input 0 2 = some (input.take 2) := by
      simp only [slice?, if_pos (show (0 : Nat) ≤ 2 ∧ 2 ≤ input.length by omega)]
      simp
    rw [hsl]
    simp only
    by_cases hmg : input.take 2 ≠ MAGIC
    · rw [if_pos hmg, if_pos hmg]
    · rw [if_neg hmg, if_neg hmg]
      have h2 : input[2]? = some input[2]! := by
        rw [getElem!_pos input 2 (by omega), List.getElem?_eq_getElem (by omega)]
      have h3 : input[3]? = some input[3]! := by
        rw [getElem!_pos input 3 (by omega), List.getElem?_eq_getElem (by omega)]
      have h4 : input[4]? = some input[4]! := by
        rw [getElem!_pos input 4 (by omega), List.getElem?_eq_getElem (by omega)]
      rw [h2, h3, h4]
      simp only
      by_cases hv : input[2]! ≠ VERSION_V1
      · rw [if_pos hv, if_pos hv]
      · rw [if_neg hv, if_neg hv]
        cases hft : FrameType.fromU8 input[3]! with
        | none => rfl
        | some t =>
          simp only
          have hdrop : dropFrom? input 5 = some (input.drop 5) := by
            simp only [dropFrom?, if_pos (show 5 ≤ input.length by omega)]
          rw [hdrop]
          simp only
          rw [decode_u32_varint_checked_eq]
          cases hvar : decode_u32_varint (input.drop 5) with
          | error e => rfl
          | ok p =>
            obtain ⟨pl, vl⟩ := p
            simp only
            by_cases hmax : max_payload_len < pl
            · rw [if_pos hmax, if_pos hmax]
            · rw [if_neg hmax, if_neg hmax]
              by_cases htot : input.length < 5 + vl + pl
              · rw [if_pos htot, if_pos htot]
              · rw [if_neg htot, if_neg htot]
                have hsl2 : slice? input (5 + vl) (5 + vl + pl) =
                    some ((input.drop (5 + vl)).take pl) := by
                  simp only [slice?,
                    if_pos (show 5 + vl ≤ 5 + vl + pl ∧ 5 + vl + pl ≤ input.length by omega)]
                  rw [show 5 + vl + pl - (5 + vl) = pl by omega]
                rw [hsl2]

lemma decode_file_accept_checked_eq (payload : List Nat) :
    decode_file_accept_payload_checked payload =
      some (decode_file_accept_payload_v1 payload) := by
  rw [decode_file_accept_payload_checked, decode_file_accept_payload_v1,
    decode_string_checked_eq]
  cases decode_string payload with
  | error e => rfl
  | ok p =>
    obtain ⟨id, n⟩ := p
    rfl

lemma decode_file_end_checked_eq (payload : List Nat) :
    decode_file_end_payload_checked payload =
      some (decode_file_end_payload_v1 payload) := by
  rw [decode_file_end_payload_checked, decode_file_end_payload_v1, decode_string_checked_eq]
  cases decode_string payload with
  | error e => rfl
  | ok p =>
    obtain ⟨id, n⟩ := p
    rfl

lemma decode_file_reject_checked_eq (payload : List Nat) :
    decode_file_reject_payload_checked payload =
      some (decode_file_reject_payload_v1 payload) := by
  rw [decode_file_reject_payload_checked, decode_file_reject_payload_v1,
    decode_string_checked_eq]
  cases h1 : decode_string payload with
  | error e => rfl
  | ok p =>
    obtain ⟨id, i1⟩ := p
    simp only
    have hd : dropFrom? payload i1 = some (payload.drop i1) := by
      simp only [dropFrom?, if_pos (decode_string_le _ _ _ h1)]
    rw [hd]
    simp only
    rw [decode_string_checked_eq]
    cases decode_string (payload.drop i1) with
    | error e => rfl
    | ok q =>
      obtain ⟨reason, i2⟩ := q
      rfl

lemma decode_file_offer_checked_eq (payload : List Nat) :
    decode_file_offer_payload_checked payload =
      some (decode_file_offer_payload_v1 payload) := by
  rw [decode_file_offer_payload_checked, decode_file_offer_payload_v1,
    decode_string_checked_eq]
  cases h1 : decode_string payload with
  | error e => rfl
  | ok p =>
    obtain ⟨id, i1⟩ := p
    simp only
    have hb1 : i1 ≤ payload.length := decode_string_le _ _ _ h1
    have hd1 : dropFrom? payload i1 = some (payload.drop i1) := by
      simp only [dropFrom?, if_pos hb1]
    rw [hd1]
    simp only
    rw [decode_string_checked_eq]
    cases h2 : decode_string (payload.drop i1) with
    | error e => rfl
    | ok q =>
      obtain ⟨filename, i2⟩ := q
      simp only
      have hb2 : i2 ≤ (payload.drop i1).length := decode_string_le _ _ _ h2
      rw [List.length_drop] at hb2
      have hd2 : dropFrom? payload (i1 + i2) = some (payload.drop (i1 + i2)) := by
        simp only [dropFrom?, if_pos (show i1 + i2 ≤ payload.length by omega)]
      rw [hd2]
      simp only
      rw [decode_string_checked_eq]
      cases h3 : decode_string (payload.drop (i1 + i2)) with
      | error e => rfl
      | ok q3 =>
        obtain ⟨mime_type, i3⟩ := q3
        simp only
        have hb3 : i3 ≤ (payload.drop (i1 + i2)).length := decode_string_le _ _ _ h3
        rw [List.length_drop] at hb3
        have hd3 : dropFrom? payload (i1 + i2 + i3) = some (payload.drop (i1 + i2 + i3)) := by
          simp only [dropFrom?, if_pos (show i1 + i2 + i3 ≤ payload.length by omega)]
        rw [hd3]
        simp only
        rw [decode_u64_varint_checked_eq]
        cases decode_u64_varint (payload.drop (i1 + i2 + i3)) with
        | error e => rfl
        | ok q4 =>
          obtain ⟨size, i4⟩ := q4
          rfl

lemma decode_file_chunk_checked_eq (payload : List Nat) :
    decode_file_chunk_payload_checked payload =
      some (decode_file_chunk_payload_v1 payload) := by
  rw [decode_file_chunk_payload_checked, decode_file_chunk_payload_v1,
    decode_string_checked_eq]
  cases h1 : decode_string payload with
  | error e => rfl
  | ok p =>
    obtain ⟨id, i1⟩ := p
    simp only
    have hd : dropFrom? payload i1 = some (payload.drop i1) := by
      simp only [dropFrom?, if_pos (decode_string_le _ _ _ h1)]
    rw [hd]
    simp only
    rw [decode_u32_varint_checked_eq]
    cases h2 : decode_u32_varint (payload.drop i1) with
    | error e => rfl
    | ok q =>
      obtain ⟨chunk_index, n2⟩ := q
      simp only
      by_cases hds : payload.length < i1 + n2
      · rw [if_pos hds, if_pos hds]
      · rw [if_neg hds, if_neg hds]
        have hd2 : dropFrom? payload (i1 + n2) = some (payload.drop (i1 + n2)) := by
          simp only [dropFrom?, if_pos (show i1 + n2 ≤ payload.length by omega)]
        rw [hd2]

lemma decode_envelope_checked_eq (payload : List Nat) :
    decode_encrypted_envelope_payload_checked payload =
      some (decode_encrypted_envelope_payload_v1 payload) := by
  rw [decode_encrypted_envelope_payload_checked, decode_encrypted_envelope_payload_v1]
  by_cases h : payload.length < ENVELOPE_NONCE_LEN
  · rw [if_pos h, if_pos h]
  · rw [if_neg h, if_neg h]
    have hsl : slice? payload 0 ENVELOPE_NONCE_LEN = some (payload.take ENVELOPE_NONCE_LEN) := by
      simp only [slice?,
        if_pos (show (0 : Nat) ≤ ENVELOPE_NONCE_LEN ∧ ENVELOPE_NONCE_LEN ≤ payload.length by
          constructor
          · omega
          · omega)]
      simp
    have hdr : dropFrom? payload ENVELOPE_NONCE_LEN = some (payload.drop ENVELOPE_NONCE_LEN) := by
      simp only [dropFrom?, if_pos (show ENVELOPE_NONCE_LEN ≤ payload.length by omega)]
    rw [hsl, hdr]

/-- C9: every decoder is total and panic-free on arbitrary input. In the
checked model, where each Rust slice, index and shift operation returns
`none` exactly when the real operation would panic or read out of
bounds, every decoder agrees with `some` of its plain counterpart on all
inputs — so each returns `Ok` or one of the enumerated `DecodeError`
values and never accesses its buffer out of bounds. -/
theorem decoders_total_no_oob :
    (∀ (input : List Nat) (max_payload_len : Nat),
        decode_v1_checked input max_payload_len = some (decode_v1 input max_payload_len))
    ∧ (∀ input : List Nat, decode_u32_varint_checked input = some (decode_u32_varint input))
    ∧ (∀ input : List Nat, decode_u64_varint_checked input = some (decode_u64_varint input))
    ∧ (∀ input : List Nat, decode_string_checked input = some (decode_string input))
    ∧ (∀ payload : List Nat, decode_file_accept_payload_checked payload =
        some (decode_file_accept_payload_v1 payload))
    ∧ (∀ payload : List Nat, decode_file_end_payload_checked payload =
        some (decode_file_end_payload_v1 payload))
    ∧ (∀ payload : List Nat, decode_file_reject_payload_checked payload =
        some (decode_file_reject_payload_v1 payload))
    ∧ (∀ payload : List Nat, decode_file_offer_payload_checked payload =
        some (decode_file_offer_payload_v1 payload))
    ∧ (∀ payload : List Nat, decode_file_chunk_payload_checked payload =
        some (decode_file_chunk_payload_v1 payload))
    ∧ (∀ payload : List Nat, decode_encrypted_envelope_payload_checked payload =
        some (decode_encrypted_envelope_payload_v1 payload)) :=
  ⟨decode_v1_checked_eq, decode_u32_varint_checked_eq, decode_u64_varint_checked_eq,
    decode_string_checked_eq, decode_file_accept_checked_eq, decode_file_end_checked_eq,
    decode_file_reject_checked_eq, decode_file_offer_checked_eq,
    decode_file_chunk_checked_eq, decode_envelope_checked_eq⟩

end HoliP2P
